import Mathlib

set_option maxRecDepth 100000
set_option linter.unusedSectionVars false
set_option linter.unusedVariables false
set_option linter.unnecessarySeqFocus false

/-!
Shallow embedding of `dbms/src/DataTypes/DataTypeWithDictionary.cpp`, the
dictionary-encoded column codec.  Element values are an abstract type `α`
with decidable equality; the element type is modelled in its non-nullable
form (`removeNullable` is the identity), which is an admissible element
type (numbers, §3 of the spec).  The element codec's bulk form is modelled
as one stream token per value, and every 64-bit integer written with
`writeIntBinary` is modelled as a word token; a stream is a list of tokens
read from the front and written at the back.  Collaborators that live
outside this translation unit (`ColumnUnique`, `ColumnWithDictionary`,
the index-width choice) are modelled from the spec and carry a
`Modelled from the spec:` doc comment; everything else is translated from
the source file, with line numbers cited.
-/

namespace DataTypeWithDictionary

/-- Error kinds surfaced by the codec: `LOGICAL_ERROR` for broken
invariants (§7 of the spec), and a stream error for reads past the end of
a stream or reads of a value where an integer is expected (the host
buffer's read-after-eof failure, which is distinct from logical-error). -/
inductive Err where
  | logicalError
  | streamError
deriving DecidableEq, Repr

/-- Stream token: either a 64-bit integer written by `writeIntBinary`
or one element value written by the element codec's bulk form. -/
inductive Token (α : Type) where
  | word (n : Nat)
  | val (a : α)
deriving DecidableEq, Repr

/-- A substream: tokens are consumed from the front and appended at the back. -/
abbrev WStream (α : Type) := List (Token α)

/-- The pair of substreams used by the codec: `…/DictionaryKeys` and
`…/DictionaryIndexes` (spec §6). -/
structure Streams (α : Type) where
  keys : WStream α
  indexes : WStream α
deriving DecidableEq, Repr

instance {ε β : Type} [DecidableEq ε] [DecidableEq β] : DecidableEq (Except ε β)
  | .ok a, .ok b =>
    if h : a = b then .isTrue (by rw [h]) else .isFalse (by intro hc; cases hc; exact h rfl)
  | .error a, .error b =>
    if h : a = b then .isTrue (by rw [h]) else .isFalse (by intro hc; cases hc; exact h rfl)
  | .ok _, .error _ => .isFalse (by intro hc; cases hc)
  | .error _, .ok _ => .isFalse (by intro hc; cases hc)

/-- Model of `readIntBinary`: consume one word token. -/
def readWord {α : Type} : WStream α → Except Err (Nat × WStream α)
  | Token.word n :: rest => .ok (n, rest)
  | _ => .error .streamError

/-- Read `n` packed integers (the indexes of one block). -/
def readWords {α : Type} : Nat → WStream α → Except Err (List Nat × WStream α)
  | 0, s => .ok ([], s)
  | n + 1, s =>
    match readWord s with
    | .error e => .error e
    | .ok (w, s) =>
      match readWords n s with
      | .error e => .error e
      | .ok (ws, s) => .ok (w :: ws, s)

/-- Model of the element codec's `deserializeBinaryBulk`: read `n` element
values (spec §6, element codec interface). -/
def readVals {α : Type} : Nat → WStream α → Except Err (List α × WStream α)
  | 0, s => .ok ([], s)
  | n + 1, Token.val a :: s =>
    match readVals n s with
    | .error e => .error e
    | .ok (vs, s) => .ok (a :: vs, s)
  | _ + 1, _ => .error .streamError

/-- Modelled from the spec: `ColumnWithDictionary` (§3), a pair of a
dictionary (an ordered set of distinct values, id = position) and a
vector of indexes into it.  `sharedWithGlobal` models pointer identity of
the column's dictionary with the decoder's current global dictionary
(spec §9, "Dynamic column identity"): it is set by
`setSharedDictionary`, survives direct index appends, and is broken by
any operation that rebuilds the column's own dictionary. -/
structure ColumnWithDictionary (α : Type) where
  dictionary : List α
  indexes : List Nat
  sharedWithGlobal : Bool
deriving DecidableEq, Repr

variable {α : Type} [DecidableEq α] [Inhabited α]

/-- Logical length of a dictionary-encoded column (spec §3). -/
def size (c : ColumnWithDictionary α) : Nat := c.indexes.length

/-- The sequence of logical values of the column: `values c i = dictionary[indexes[i]]`. -/
def values (c : ColumnWithDictionary α) : List α :=
  c.indexes.map (fun i => c.dictionary.getD i default)

/-- Distinct elements of a list in first-occurrence order. -/
def distinctFirst (l : List α) : List α :=
  l.foldl (fun acc v => if v ∈ acc then acc else acc ++ [v]) []

/-- The values of rows `[offset, offset+limit)` of a column. -/
def blockValues (c : ColumnWithDictionary α) (offset limit : Nat) : List α :=
  ((values c).drop offset).take limit

/-- Modelled from the spec: `cut_and_compact` (§4.3): the sub-column over
rows `[offset, offset+limit)` whose dictionary holds exactly the distinct
values referenced there, renumbered densely from zero. -/
def cutAndCompact (c : ColumnWithDictionary α) (offset limit : Nat) : ColumnWithDictionary α :=
  let vals := blockValues c offset limit
  let d := distinctFirst vals
  ⟨d, vals.map (fun v => d.indexOf v), false⟩

/-- Modelled from the spec: `set_shared_dictionary` (§4.3): when the
receiver is empty, replace its dictionary by the (shared) given one. -/
def setSharedDictionary (c : ColumnWithDictionary α) (g : List α) : ColumnWithDictionary α :=
  ⟨g, c.indexes, true⟩

/-- Modelled from the spec: `insert_range_from` when the source shares the
receiver's dictionary (§4.3): append the indexes directly. -/
def insertRangeFromShared (c : ColumnWithDictionary α) (idx : List Nat) : ColumnWithDictionary α :=
  { c with indexes := c.indexes ++ idx }

/-- Append one logical value, deduplicating against the receiver's dictionary. -/
def insertValueDedup (c : ColumnWithDictionary α) (v : α) : ColumnWithDictionary α :=
  match c.dictionary.indexOf? v with
  | some i => { c with indexes := c.indexes ++ [i] }
  | none => ⟨c.dictionary ++ [v], c.indexes ++ [c.dictionary.length], c.sharedWithGlobal⟩

/-- Modelled from the spec: `insert_range_from_dictionary_encoded` (§4.3):
logically append the rows `keys[idx[i]]`.  The receiver's own dictionary
is (re)built by copy-on-write, so identity with the decoder's global
dictionary is lost. -/
def insertRangeFromDictionaryEncodedColumn (c : ColumnWithDictionary α) (keys : List α)
    (idx : List Nat) : ColumnWithDictionary α :=
  { idx.foldl (fun c i => insertValueDedup c (keys.getD i default)) c with sharedWithGlobal := false }

/-- Result of `uniqueInsertRangeWithOverflow`: the per-input mapping, the
overflowed keys, and the grown dictionary. -/
structure IndexesWithOverflow (α : Type) where
  mapping : List Nat
  overflow : List α
  dict : List α
deriving DecidableEq, Repr

/-- Modelled from the spec: `insert_range_with_overflow` of the unique
column (§4.2).  Keys already present map to their global id; while the
dictionary size is below `maxSize` new keys are inserted with dense ids;
afterwards new keys go to `overflow` and map to
`dictionary size + position in overflow`, deduplicated within the call. -/
def uniqueInsertRangeWithOverflow (dict : List α) (keys : List α) (maxSize : Nat) :
    IndexesWithOverflow α :=
  keys.foldl
    (fun r k =>
      match r.dict.indexOf? k with
      | some i => { r with mapping := r.mapping ++ [i] }
      | none =>
        if r.dict.length < maxSize then
          { mapping := r.mapping ++ [r.dict.length], overflow := r.overflow, dict := r.dict ++ [k] }
        else
          match r.overflow.indexOf? k with
          | some j => { r with mapping := r.mapping ++ [r.dict.length + j] }
          | none =>
            { mapping := r.mapping ++ [r.dict.length + r.overflow.length],
              overflow := r.overflow ++ [k], dict := r.dict })
    ⟨[], [], dict⟩

/-- The `Type` enumeration of `IndexesSerializationType` (lines 100-106). -/
inductive IndexNumType where
  | tUInt8
  | tUInt16
  | tUInt32
  | tUInt64
deriving DecidableEq, Repr

/-- Numeric value of the width code {0:u8, 1:u16, 2:u32, 3:u64}. -/
def IndexNumType.toNat : IndexNumType → Nat
  | .tUInt8 => 0
  | .tUInt16 => 1
  | .tUInt32 => 2
  | .tUInt64 => 3

/-- `NeedGlobalDictionaryBit = 1 << 8` (line 97). -/
def NeedGlobalDictionaryBit : Nat := 256

/-- `HasAdditionalKeysBit = 1 << 9` (line 98). -/
def HasAdditionalKeysBit : Nat := 512

/-- In-memory index-type descriptor (lines 94-111). -/
structure IndexesSerializationType where
  type : IndexNumType
  has_additional_keys : Bool
  need_global_dictionary : Bool
deriving DecidableEq, Repr

/-- `resetFlags` (lines 112-115): clear the two flag bits.  The UInt64
complement `~x` is `2^64 - 1 - x`. -/
def resetFlags (t : Nat) : Nat :=
  t &&& (2 ^ 64 - 1 - (HasAdditionalKeysBit ||| NeedGlobalDictionaryBit))

/-- `IndexesSerializationType::serialize` (lines 126-134), the word it writes. -/
def serializeIndexesType (i : IndexesSerializationType) : Nat :=
  (i.type.toNat ||| (if i.has_additional_keys then HasAdditionalKeysBit else 0)) |||
    (if i.need_global_dictionary then NeedGlobalDictionaryBit else 0)

/-- `IndexesSerializationType::deserialize` after the word has been read
(lines 136-144), including `checkType` (lines 117-124): fail with
logical-error unless the word with flag bits cleared is at most 3.  The
catch-all arm of the width match is unreachable: `checkType` has already
ensured `resetFlags v ≤ 3`. -/
def deserializeIndexesTypeWord (v : Nat) : Except Err IndexesSerializationType :=
  if resetFlags v ≤ 3 then
    .ok
      { type :=
          match resetFlags v with
          | 0 => .tUInt8
          | 1 => .tUInt16
          | 2 => .tUInt32
          | _ => .tUInt64,
        has_additional_keys := v &&& HasAdditionalKeysBit != 0,
        need_global_dictionary := v &&& NeedGlobalDictionaryBit != 0 }
  else .error .logicalError

/-- Modelled from the spec: the width of the indexes column handed to the
`IndexesSerializationType` constructor (lines 146-160) is the smallest
that fits all ids the encoder emits in the block (spec §3). -/
def widthType (positions : List Nat) : IndexNumType :=
  let m := positions.foldl max 0
  if m < 2 ^ 8 then .tUInt8
  else if m < 2 ^ 16 then .tUInt16
  else if m < 2 ^ 32 then .tUInt32
  else .tUInt64

/-- The two serialization settings this codec reads (spec §4.4). -/
structure SerializeSettings where
  max_dictionary_size : Nat
  use_new_dictionary_on_overflow : Bool
deriving DecidableEq, Repr

/-- `SerializeStateWithDictionary` (lines 179-189).  The dictionary is an
owning pointer, hence an `Option`; every state the code constructs holds
`some` dictionary (prefix, line 250; reset on flush, line 420). -/
structure SerializeState (α : Type) where
  key_version : Nat
  global_dictionary : Option (List α)
deriving DecidableEq, Repr

/-- `DeserializeStateWithDictionary` (lines 191-201).  A default
(garbage) `index_type` models the default-constructed descriptor, which
is never read before a header assigns it. -/
structure DeserializeState (α : Type) where
  key_version : Nat
  global_dictionary : Option (List α)
  index_type : IndexesSerializationType
  additional_keys : Option (List α)
  num_pending_rows : Nat
deriving DecidableEq, Repr

/-- `serializeBinaryBulkStatePrefix` (lines 233-252): require the keys
stream, write version 1 and create the state with an empty unique column. -/
def serializeBinaryBulkStatePrefixOp (hasKeysStream : Bool) (keys : WStream α) :
    Except Err (SerializeState α × WStream α) :=
  if !hasKeysStream then .error .logicalError
  else .ok (⟨1, some []⟩, keys ++ [Token.word 1])

/-- `serializeBinaryBulkStateSuffix` (lines 254-277): after the version
check, write the global dictionary (count then keys) to the keys stream
when the state's dictionary pointer is non-null and
`max_dictionary_size` is nonzero. -/
def serializeBinaryBulkStateSuffix (settings : SerializeSettings) (state : SerializeState α)
    (hasKeysStream : Bool) (streams : Streams α) : Except Err (Streams α) :=
  if state.key_version ≠ 1 then .error .logicalError
  else
    match state.global_dictionary with
    | some g =>
      if settings.max_dictionary_size ≠ 0 then
        if !hasKeysStream then .error .logicalError
        else .ok ⟨streams.keys ++ Token.word g.length :: g.map Token.val, streams.indexes⟩
      else .ok streams
    | none => .ok streams

/-- `serializeBinaryBulkWithMultipleStreams` (lines 359-433).  The getter
results for the two sub-paths are the `hasKeysStream`/`hasIndexesStream`
flags; stream contents are threaded through `streams`. -/
def serializeBinaryBulkWithMultipleStreams (column : ColumnWithDictionary α)
    (offset limit : Nat) (settings : SerializeSettings) (state : SerializeState α)
    (hasKeysStream hasIndexesStream : Bool) (streams : Streams α) :
    Except Err (SerializeState α × Streams α) :=
  if !hasKeysStream && !hasIndexesStream then .ok (state, streams)
  else if !hasKeysStream then .error .logicalError
  else if !hasIndexesStream then .error .logicalError
  else if state.key_version ≠ 1 then .error .logicalError
  else
    let max_limit := size column - offset
    let limit := if limit ≠ 0 then min limit max_limit else max_limit
    let sub := cutAndCompact column offset limit
    let afterDict :=
      if settings.max_dictionary_size ≠ 0 then
        let iwo := uniqueInsertRangeWithOverflow (state.global_dictionary.getD [])
          sub.dictionary settings.max_dictionary_size
        (sub.indexes.map (fun p => iwo.mapping.getD p 0), iwo.overflow, some iwo.dict)
      else (sub.indexes, sub.dictionary, state.global_dictionary)
    let positions := afterDict.1
    let keys := afterDict.2.1
    let gdict := afterDict.2.2
    let need_additional_keys := !keys.isEmpty
    let need_dictionary : Bool := settings.max_dictionary_size != 0
    let need_write_dictionary : Bool := settings.use_new_dictionary_on_overflow
      && decide ((gdict.getD []).length ≥ settings.max_dictionary_size)
    let index_version : IndexesSerializationType :=
      ⟨widthType positions, need_additional_keys, need_dictionary⟩
    let indexesOut := streams.indexes ++ [Token.word (serializeIndexesType index_version)]
    let keysAndDict :=
      if need_write_dictionary then
        (streams.keys ++ Token.word (gdict.getD []).length :: (gdict.getD []).map Token.val,
          some ([] : List α))
      else (streams.keys, gdict)
    let indexesOut :=
      if need_additional_keys then indexesOut ++ Token.word keys.length :: keys.map Token.val
      else indexesOut
    let indexesOut := indexesOut ++ Token.word positions.length :: positions.map Token.word
    .ok ({ state with global_dictionary := keysAndDict.2 }, ⟨keysAndDict.1, indexesOut⟩)

/-- `deserializeBinaryBulkStatePrefix` (lines 279-295) together with the
version check of the `KeysSerializationVersion` constructor (lines
85-92): read the version word, require it to be 1. -/
def deserializeBinaryBulkStatePrefixOp (hasKeysStream : Bool) (keys : WStream α) :
    Except Err (DeserializeState α × WStream α) :=
  if !hasKeysStream then .error .logicalError
  else
    match readWord keys with
    | .error e => .error e
    | .ok (v, keys) =>
      if v = 1 then .ok (⟨v, none, ⟨.tUInt8, false, false⟩, none, 0⟩, keys)
      else .error .logicalError

/-- The membership test of the first loop of `mapIndexWithOverflow`
(line 317): ClickHouse `HashMap::insert` does not overwrite an existing
key, so the map records first occurrences with dense ranks. -/
def hashMapContains (m : List (Nat × Nat)) (k : Nat) : Bool :=
  m.any (fun p => p.1 == k)

/-- `hash_map[val]` lookup (line 328); the key is always present there. -/
def hashMapFind (m : List (Nat × Nat)) (k : Nat) : Nat :=
  ((m.find? (fun p => p.1 == k)).map (fun p => p.2)).getD 0

/-- The first loop of `mapIndexWithOverflow` (lines 314-318): insert each
below-bound value with the map's current size as its rank. -/
def buildHashMap (index : List Nat) (maxVal : Nat) : List (Nat × Nat) :=
  index.foldl
    (fun m v =>
      if v < maxVal then (if hashMapContains m v then m else m ++ [(v, m.length)]) else m)
    []

/-- The second loop of `mapIndexWithOverflow` (lines 320-325):
`index_data[val.second] = val.first` over all map entries, into an array
of the map's size. -/
def indexMapData (m : List (Nat × Nat)) : List Nat :=
  (List.range m.length).map (fun r => (((m.find? (fun p => p.2 == r)).map (fun p => p.1)).getD 0))

/-- `mapIndexWithOverflow` (lines 309-332): returns the map column and the
remapped index column.  The arithmetic `val - max_val + hash_map.size()`
never exceeds `val`, since the map's size is at most `max_val`, so the
unsigned truncation of the source is the identity and plain `Nat`
arithmetic is exact. -/
def mapIndexWithOverflow (index : List Nat) (maxVal : Nat) : List Nat × List Nat :=
  let hm := buildHashMap index maxVal
  (indexMapData hm,
    index.map (fun v => if v < maxVal then hashMapFind hm v else v - maxVal + hm.length))

/-- The `readIndexes` lambda of the decoder (lines 483-518).  The
dereference of a null global dictionary (possible only for streams no
encoder produces) is modelled as the empty dictionary. -/
def readIndexes (st : DeserializeState α) (column : ColumnWithDictionary α) (numRows : Nat)
    (indexes : WStream α) : Except Err (ColumnWithDictionary α × WStream α) :=
  match readWords numRows indexes with
  | .error e => .error e
  | .ok (idx, indexes) =>
    let g := st.global_dictionary.getD []
    if !st.index_type.has_additional_keys
        && (column.indexes.isEmpty || column.sharedWithGlobal) then
      let column := if column.indexes.isEmpty then setSharedDictionary column g else column
      .ok (insertRangeFromShared column idx, indexes)
    else if !st.index_type.need_global_dictionary then
      .ok (insertRangeFromDictionaryEncodedColumn column (st.additional_keys.getD []) idx, indexes)
    else
      let mio := mapIndexWithOverflow idx g.length
      let keys := mio.1.map (fun j => g.getD j default)
      let keys :=
        match st.additional_keys with
        | some ak => keys ++ ak
        | none => keys
      .ok (insertRangeFromDictionaryEncodedColumn column keys mio.2, indexes)

/-- The header phase of the decoding loop (lines 522-538, the
`num_pending_rows == 0` branch after the eof test): read and decode the
index-type word, read the global dictionary from the keys stream when the
header needs one and none is installed yet, read or clear the additional
keys, and read the pending row count. -/
def readHeaderPhase (st : DeserializeState α) (keys indexes : WStream α) :
    Except Err (DeserializeState α × WStream α × WStream α) :=
  match readWord indexes with
  | .error e => .error e
  | .ok (w, indexes) =>
    match deserializeIndexesTypeWord w with
    | .error e => .error e
    | .ok it =>
      let st := { st with index_type := it }
      let afterDict : Except Err (DeserializeState α × WStream α) :=
        if it.need_global_dictionary && st.global_dictionary.isNone then
          match readWord keys with
          | .error e => .error e
          | .ok (numKeys, keys) =>
            match readVals numKeys keys with
            | .error e => .error e
            | .ok (gk, keys) => .ok ({ st with global_dictionary := some gk }, keys)
        else .ok (st, keys)
      match afterDict with
      | .error e => .error e
      | .ok (st, keys) =>
        let afterAdd : Except Err (DeserializeState α × WStream α) :=
          if st.index_type.has_additional_keys then
            match readWord indexes with
            | .error e => .error e
            | .ok (numKeys, indexes) =>
              match readVals numKeys indexes with
              | .error e => .error e
              | .ok (ak, indexes) => .ok ({ st with additional_keys := some ak }, indexes)
          else .ok ({ st with additional_keys := none }, indexes)
        match afterAdd with
        | .error e => .error e
        | .ok (st, indexes) =>
          match readWord indexes with
          | .error e => .error e
          | .ok (np, indexes) => .ok ({ st with num_pending_rows := np }, keys, indexes)

/-- The `while (limit)` loop of
`deserializeBinaryBulkWithMultipleStreams` (lines 520-544), with explicit
fuel.  Every iteration either consumes at least one token of the indexes
stream or decreases `limit`, so `limit + |indexes| + 1` fuel (supplied by
the wrapper below) can never run out; the fuel-exhausted arm is
unreachable there. -/
def deserializeLoop (fuel : Nat) (column : ColumnWithDictionary α) (limit : Nat)
    (st : DeserializeState α) (keys indexes : WStream α) :
    Except Err (ColumnWithDictionary α × DeserializeState α × Streams α) :=
  match fuel with
  | 0 => .ok (column, st, ⟨keys, indexes⟩)
  | fuel + 1 =>
    if limit = 0 then .ok (column, st, ⟨keys, indexes⟩)
    else if st.num_pending_rows = 0 then
      if indexes.isEmpty then .ok (column, st, ⟨keys, indexes⟩)
      else
        match readHeaderPhase st keys indexes with
        | .error e => .error e
        | .ok (st, keys, indexes) =>
          let n := min limit st.num_pending_rows
          match readIndexes st column n indexes with
          | .error e => .error e
          | .ok (column, indexes) =>
            deserializeLoop fuel column (limit - n)
              { st with num_pending_rows := st.num_pending_rows - n } keys indexes
    else
      let n := min limit st.num_pending_rows
      match readIndexes st column n indexes with
      | .error e => .error e
      | .ok (column, indexes) =>
        deserializeLoop fuel column (limit - n)
          { st with num_pending_rows := st.num_pending_rows - n } keys indexes

/-- `deserializeBinaryBulkWithMultipleStreams` (lines 435-545): version
check, stream resolution (both absent: no-op; exactly one: logical
error), then the decoding loop. -/
def deserializeBinaryBulkWithMultipleStreams (column : ColumnWithDictionary α) (limit : Nat)
    (st : DeserializeState α) (hasKeysStream hasIndexesStream : Bool) (streams : Streams α) :
    Except Err (ColumnWithDictionary α × DeserializeState α × Streams α) :=
  if st.key_version ≠ 1 then .error .logicalError
  else if !hasKeysStream && !hasIndexesStream then .ok (column, st, streams)
  else if !hasKeysStream then .error .logicalError
  else if !hasIndexesStream then .error .logicalError
  else deserializeLoop (limit + streams.indexes.length + 1) column limit st
    streams.keys streams.indexes

/-- One full encoding session: prefix, the given `(offset, limit)` blocks
in order, then the suffix, over initially empty streams with both
substreams available. -/
def encodeSession (column : ColumnWithDictionary α) (blocks : List (Nat × Nat))
    (settings : SerializeSettings) : Except Err (Streams α) :=
  match serializeBinaryBulkStatePrefixOp true ([] : WStream α) with
  | .error e => .error e
  | .ok (st, keys) =>
    let r := blocks.foldl
      (fun (acc : Except Err (SerializeState α × Streams α)) b =>
        match acc with
        | .error e => .error e
        | .ok (st, streams) =>
          serializeBinaryBulkWithMultipleStreams column b.1 b.2 settings st true true streams)
      (.ok (st, ⟨keys, []⟩))
    match r with
    | .error e => .error e
    | .ok (st, streams) => serializeBinaryBulkStateSuffix settings st true streams

/-- One full decoding session over the given streams: prefix, then one
bulk read of `limit` rows into a freshly created empty column. -/
def decodeSession (streams : Streams α) (limit : Nat) :
    Except Err (ColumnWithDictionary α) :=
  match deserializeBinaryBulkStatePrefixOp true streams.keys with
  | .error e => .error e
  | .ok (st, keys) =>
    match deserializeBinaryBulkWithMultipleStreams ⟨[], [], false⟩ limit st true true
        ⟨keys, streams.indexes⟩ with
    | .error e => .error e
    | .ok (c, _, _) => .ok c

/-! Theorems. -/

/-- C8: stream-absence behaviour of per-block serialization: with no
stream for either sub-path the call is a no-op returning the state and
streams unchanged; with a stream for exactly one sub-path it fails with
logical-error (lines 366-379). -/
theorem serialize_stream_absence (column : ColumnWithDictionary α) (offset limit : Nat)
    (settings : SerializeSettings) (state : SerializeState α) (streams : Streams α) :
    (serializeBinaryBulkWithMultipleStreams column offset limit settings state
        false false streams = .ok (state, streams)) ∧
    (∀ hK hI : Bool, hK ≠ hI →
      serializeBinaryBulkWithMultipleStreams column offset limit settings state
        hK hI streams = .error .logicalError) := by
  refine ⟨by simp [serializeBinaryBulkWithMultipleStreams], ?_⟩
  intro hK hI h
  cases hK <;> cases hI <;>
    first
    | exact absurd rfl h
    | simp [serializeBinaryBulkWithMultipleStreams]

/-- Witness for C8 at a concrete input: one stream present and one absent
fails with logical-error. -/
theorem serialize_stream_absence_witness :
    serializeBinaryBulkWithMultipleStreams (⟨[3], [0], false⟩ : ColumnWithDictionary Nat)
      0 0 ⟨0, false⟩ ⟨1, some []⟩ true false ⟨[], []⟩ = .error .logicalError :=
  (serialize_stream_absence (⟨[3], [0], false⟩ : ColumnWithDictionary Nat)
    0 0 ⟨0, false⟩ ⟨1, some []⟩ ⟨[], []⟩).2 true false (by decide)

/-- C9: the version gate of the deserialization prefix: one word is read
from the keys stream, logical-error is raised if and only if it is not 1,
and on success the fresh state has version 1, no global dictionary, no
additional keys and zero pending rows (lines 85-92 and 279-295). -/
theorem deserialize_prefix_version_gate (v : Nat) (rest : WStream α) :
    (deserializeBinaryBulkStatePrefixOp true (Token.word v :: rest)
        = (.error .logicalError : Except Err (DeserializeState α × WStream α)) ↔ v ≠ 1) ∧
    (v = 1 → deserializeBinaryBulkStatePrefixOp true (Token.word v :: rest)
        = .ok ((⟨1, none, ⟨.tUInt8, false, false⟩, none, 0⟩ : DeserializeState α), rest)) := by
  by_cases h : v = 1 <;>
    simp [deserializeBinaryBulkStatePrefixOp, readWord, h]

/-- Witness for C9 at concrete inputs: version word 1 succeeds with the
fresh state, and version word 2 is rejected. -/
theorem deserialize_prefix_version_gate_witness :
    (deserializeBinaryBulkStatePrefixOp true [Token.word 1]
        = .ok ((⟨1, none, ⟨.tUInt8, false, false⟩, none, 0⟩ : DeserializeState Nat), [])) ∧
    (deserializeBinaryBulkStatePrefixOp true [Token.word 2]
        = (.error .logicalError : Except Err (DeserializeState Nat × WStream Nat))) :=
  ⟨(deserialize_prefix_version_gate 1 ([] : WStream Nat)).2 rfl,
   (deserialize_prefix_version_gate 2 ([] : WStream Nat)).1.mpr (by decide)⟩

/-- C1 (failing run): encoding the column `[1,1,2,2]` in two blocks of
two rows with `max_dictionary_size = 1` and
`use_new_dictionary_on_overflow = true` flushes the dictionary `[1]`
after the first block and the dictionary `[2]` after the second, but the
decoder installs only the first dictionary and skips the second, so the
decoded column is `[1,1,1,1]`, not the original `[1,1,2,2]`. -/
theorem roundTrip_failure_on_dictionary_flush :
    ((encodeSession (⟨[1, 2], [0, 0, 1, 1], false⟩ : ColumnWithDictionary Nat)
        [(0, 2), (2, 2)] ⟨1, true⟩).bind
      (fun s => (decodeSession s 4).map values) = .ok [1, 1, 1, 1]) ∧
    values (⟨[1, 2], [0, 0, 1, 1], false⟩ : ColumnWithDictionary Nat) = [1, 1, 2, 2] ∧
    ([1, 1, 1, 1] : List Nat) ≠ [1, 1, 2, 2] := by
  decide

/-- C2 (counterexample): with `max_dictionary_size = 0` but
`use_new_dictionary_on_overflow = true`, a per-block serialize call does
write to the keys stream: `need_write_dictionary` (line 408) is true
because the empty global dictionary's size is `≥ 0`, so the block emits a
zero key count (one u64) to the keys stream. -/
theorem serialize_maxzero_newdict_writes_keys :
    serializeBinaryBulkWithMultipleStreams (⟨[5], [0], false⟩ : ColumnWithDictionary Nat)
        0 0 ⟨0, true⟩ ⟨1, some []⟩ true true ⟨[], []⟩
      = .ok (⟨1, some []⟩,
          ⟨[Token.word 0],
           [Token.word 512, Token.word 1, Token.val 5, Token.word 1, Token.word 0]⟩) ∧
    ([Token.word 0] : WStream Nat) ≠ [] := by
  decide

/-- C3 (counterexample): the suffix writes the dictionary block whenever
the state's dictionary pointer is non-null and `max_dictionary_size > 0`
(line 261) — also when that dictionary is empty, in which case a zero key
count is still written to the keys stream, contradicting the claim that
an existing-but-empty dictionary writes nothing. -/
theorem suffix_writes_empty_dictionary :
    serializeBinaryBulkStateSuffix (α := Nat) ⟨1, true⟩ ⟨1, some []⟩ true ⟨[], []⟩
      = .ok ⟨[Token.word 0], []⟩ ∧
    ([Token.word 0] : WStream Nat) ≠ [] := by
  decide

/-- C4 (counterexample): a per-block serialize call with `limit = 0` on a
one-row column serializes one row (row-count word 1 followed by one
index), not `min 0 (1 - 0) = 0` rows: line 388 treats `limit = 0` as
"all remaining rows". -/
theorem serialize_limit_zero_serializes_all :
    serializeBinaryBulkWithMultipleStreams (⟨[7], [0], false⟩ : ColumnWithDictionary Nat)
        0 0 ⟨0, false⟩ ⟨1, some []⟩ true true ⟨[], []⟩
      = .ok (⟨1, some []⟩,
          ⟨[], [Token.word 512, Token.word 1, Token.val 7, Token.word 1, Token.word 0]⟩) ∧
    (1 : Nat) ≠ min 0 (size (⟨[7], [0], false⟩ : ColumnWithDictionary Nat) - 0) := by
  decide

/-- Helper: the flag mask of `resetFlags`, decomposed into high and low parts. -/
theorem mask_decomp : 2 ^ 64 - 1 - (HasAdditionalKeysBit ||| NeedGlobalDictionaryBit)
    = 2 ^ 10 * (2 ^ 54 - 1) + 255 := by decide

/-- Helper: the weight of bits 8 and 9 of a number below 1024. -/
theorem lowbits_weight (lo : Nat) (h : lo < 1024) :
    256 * (lo.testBit 8).toNat + 512 * (lo.testBit 9).toNat = lo - lo % 256 := by
  revert h
  revert lo
  decide

/-- Helper: `resetFlags` keeps exactly the low byte and the bits from 10
up of a 64-bit word. -/
theorem resetFlags_decomp (w : Nat) (hw : w < 2 ^ 64) :
    resetFlags w = 2 ^ 10 * (w / 1024) + w % 1024 % 256 := by
  have hw' : w = 2 ^ 10 * (w / 1024) + w % 1024 := by
    have := Nat.div_add_mod w 1024
    omega
  have hlo : w % 1024 < 2 ^ 10 := by omega
  have hh : w / 1024 < 2 ^ 54 := by
    have h64 : (2 : Nat) ^ 64 = 18446744073709551616 := by norm_num
    have h54 : (2 : Nat) ^ 54 = 18014398509481984 := by norm_num
    omega
  unfold resetFlags
  rw [mask_decomp]
  apply Nat.eq_of_testBit_eq
  intro j
  rw [Nat.testBit_land]
  rw [Nat.testBit_mul_pow_two_add _ (by decide : (255 : Nat) < 2 ^ 10) j]
  rw [Nat.testBit_mul_pow_two_add _ (by omega : w % 1024 % 256 < 2 ^ 10) j]
  conv_lhs => rw [hw']
  rw [Nat.testBit_mul_pow_two_add _ hlo j]
  by_cases hj : j < 10
  · have h255 : (255 : Nat) = 2 ^ 8 - 1 := by norm_num
    have hm : w % 1024 % 256 = w % 1024 % 2 ^ 8 := by norm_num
    rw [hm, Nat.testBit_mod_two_pow, h255, Nat.testBit_two_pow_sub_one]
    simp [hj, Bool.and_comm]
  · rw [Nat.testBit_two_pow_sub_one]
    simp only [if_neg hj]
    by_cases hj2 : j - 10 < 54
    · simp [hj2]
    · have hz : (w / 1024).testBit (j - 10) = false := by
        apply Nat.testBit_eq_false_of_lt
        exact Nat.lt_of_lt_of_le hh (Nat.pow_le_pow_right (by norm_num) (by omega))
      simp [hj2, hz]

/-- Helper: for a 64-bit word, the source's flag-clearing mask computes
exactly the arithmetic subtraction of bit 8 and bit 9. -/
theorem resetFlags_eq_sub (w : Nat) (hw : w < 2 ^ 64) :
    resetFlags w = w - 256 * (w.testBit 8).toNat - 512 * (w.testBit 9).toNat := by
  have hA := resetFlags_decomp w hw
  have hw' : w = 2 ^ 10 * (w / 1024) + w % 1024 := by
    have := Nat.div_add_mod w 1024
    omega
  have hlo : w % 1024 < 2 ^ 10 := by omega
  have hb8 : w.testBit 8 = (w % 1024).testBit 8 := by
    conv_lhs => rw [hw']
    rw [Nat.testBit_mul_pow_two_add _ hlo 8]
    simp
  have hb9 : w.testBit 9 = (w % 1024).testBit 9 := by
    conv_lhs => rw [hw']
    rw [Nat.testBit_mul_pow_two_add _ hlo 9]
    simp
  have hlow := lowbits_weight (w % 1024) (by omega)
  rw [hA, hb8, hb9]
  omega

/-- C5: every header word produced by `serialize` has all bits above 9
zero and clears to a width code in {0,1,2,3}; and for every such
well-formed word, deserializing and re-serializing is the identity
(lines 94-177). -/
theorem index_type_header_roundtrip :
    (∀ i : IndexesSerializationType,
        serializeIndexesType i < 1024 ∧ resetFlags (serializeIndexesType i) ≤ 3) ∧
    (∀ w : Nat, w < 1024 → resetFlags w ≤ 3 →
        (deserializeIndexesTypeWord w).map serializeIndexesType = .ok w) := by
  constructor
  · intro i
    obtain ⟨t, a, g⟩ := i
    cases t <;> cases a <;> cases g <;> decide
  · decide

/-- Witness for C5 at the concrete well-formed header word 771
(width 3 with both flag bits set). -/
theorem index_type_header_roundtrip_witness :
    (deserializeIndexesTypeWord 771).map serializeIndexesType = .ok 771 :=
  index_type_header_roundtrip.2 771 (by decide) (by decide)

/-- C6: deserializing a header word clears bits 8 and 9 and raises
logical-error if and only if what remains exceeds 3; in particular the
word 0x400 (bit 10 set) is rejected (lines 112-144). -/
theorem index_type_header_rejection (w : Nat) (hw : w < 2 ^ 64) :
    (deserializeIndexesTypeWord w = .error .logicalError ↔
      3 < w - 256 * (w.testBit 8).toNat - 512 * (w.testBit 9).toNat) ∧
    deserializeIndexesTypeWord 1024 = .error .logicalError := by
  constructor
  · rw [← resetFlags_eq_sub w hw]
    unfold deserializeIndexesTypeWord
    by_cases h : resetFlags w ≤ 3 <;> simp [h] <;> omega
  · decide

/-- Witness for C6 at the concrete header word 0x400. -/
theorem index_type_header_rejection_witness :
    deserializeIndexesTypeWord 1024 = .error .logicalError :=
  (index_type_header_rejection 1024 (by norm_num)).2

/-- C3 (amended): the suffix writes the global dictionary (u64 count
then the keys) to the keys stream if and only if the state holds a
dictionary (a non-null pointer — possibly empty, in which case the count
0 is still written) and `max_dictionary_size > 0`; otherwise it writes
nothing, and it never writes to the indexes stream (lines 254-277). -/
theorem suffix_frame (settings : SerializeSettings) (state : SerializeState α)
    (streams : Streams α) (hv : state.key_version = 1) :
    (∀ g, state.global_dictionary = some g → settings.max_dictionary_size ≠ 0 →
        serializeBinaryBulkStateSuffix settings state true streams
          = .ok ⟨streams.keys ++ Token.word g.length :: g.map Token.val, streams.indexes⟩) ∧
    (state.global_dictionary = none ∨ settings.max_dictionary_size = 0 →
      ∀ hK : Bool, serializeBinaryBulkStateSuffix settings state hK streams = .ok streams) ∧
    (∀ hK : Bool, ∀ r : Streams α,
      serializeBinaryBulkStateSuffix settings state hK streams = .ok r →
        r.indexes = streams.indexes) := by
  refine ⟨?_, ?_, ?_⟩
  · intro g hg hm
    simp [serializeBinaryBulkStateSuffix, hv, hg, hm]
  · intro h hK
    rcases h with h | h
    · simp [serializeBinaryBulkStateSuffix, hv, h]
    · cases hg : state.global_dictionary <;>
        simp [serializeBinaryBulkStateSuffix, hv, h, hg]
  · intro hK r hr
    cases hg : state.global_dictionary with
    | none =>
      simp [serializeBinaryBulkStateSuffix, hv, hg] at hr
      rw [← hr]
    | some g =>
      simp only [serializeBinaryBulkStateSuffix, hv, hg, ne_eq, not_true_eq_false,
        if_false, reduceIte] at hr
      split_ifs at hr <;> cases hr <;> rfl

/-- Witness for C3 (amended) at a concrete input: a one-key dictionary
with `max_dictionary_size = 1` is written as count 1 followed by the key. -/
theorem suffix_frame_witness :
    serializeBinaryBulkStateSuffix (α := Nat) ⟨1, false⟩ ⟨1, some [5]⟩ true ⟨[], []⟩
      = .ok ⟨[Token.word 1, Token.val 5], []⟩ :=
  (suffix_frame ⟨1, false⟩ ⟨1, some [5]⟩ ⟨[], []⟩ rfl).1 [5] rfl (by decide)

/-- Helper: a header whose need-global-dictionary flag is false has bit 8
clear. -/
theorem serialize_header_bit8_of_not_need (t : IndexNumType) (b : Bool) :
    (serializeIndexesType ⟨t, b, false⟩).testBit 8 = false := by
  cases t <;> cases b <;> decide

/-- Helper: closed form of a per-block serialize call when
`max_dictionary_size = 0` — the global-dictionary insertion is skipped,
the header carries the block's width and additional-keys flag with the
need-global flag clear, the block's distinct values go to the indexes
stream, and the keys stream is written (an empty dictionary payload)
precisely when `use_new_dictionary_on_overflow` holds. -/
theorem serialize_maxzero_frame (column : ColumnWithDictionary α) (offset limit : Nat)
    (settings : SerializeSettings) (state : SerializeState α) (streams : Streams α)
    (hmax : settings.max_dictionary_size = 0) (hv : state.key_version = 1)
    (lim : Nat)
    (hlim : lim = if limit = 0 then size column - offset else min limit (size column - offset))
    (D : List α) (hD : D = distinctFirst (blockValues column offset lim))
    (pos : List Nat) (hpos : pos = (blockValues column offset lim).map (fun v => D.indexOf v))
    (header : Nat)
    (hh : header = serializeIndexesType ⟨widthType pos, !D.isEmpty, false⟩) :
    serializeBinaryBulkWithMultipleStreams column offset limit settings state true true streams
      = .ok ({ state with global_dictionary :=
                (if settings.use_new_dictionary_on_overflow then some []
                  else state.global_dictionary) },
          ⟨(if settings.use_new_dictionary_on_overflow then
              streams.keys ++ Token.word (state.global_dictionary.getD []).length ::
                (state.global_dictionary.getD []).map Token.val
            else streams.keys),
            (streams.indexes ++ [Token.word header] ++
              (if D.isEmpty then [] else Token.word D.length :: D.map Token.val)) ++
              Token.word pos.length :: pos.map Token.word⟩) ∧
    header.testBit 8 = false := by
  constructor
  · subst hD
    subst hpos
    subst hh
    subst hlim
    obtain ⟨ms, un⟩ := settings
    simp only at hmax
    subst hmax
    by_cases hDe : distinctFirst (blockValues column offset
        (if limit = 0 then size column - offset
          else min limit (size column - offset))) = [] <;>
      cases un <;>
        simp [serializeBinaryBulkWithMultipleStreams, cutAndCompact, hv, hDe]
  · rw [hh]
    exact serialize_header_bit8_of_not_need _ _

/-- C2 (amended): with `max_dictionary_size = 0` the suffix writes
nothing to the keys stream, every block's header has the
need-global-dictionary bit clear, and the block carries all of its
distinct values (first-occurrence order) as additional keys on the
indexes stream; the keys stream is untouched by per-block calls exactly
when `use_new_dictionary_on_overflow` is false — when it is true, each
per-block call writes an empty dictionary payload (a u64 zero count) to
the keys stream and resets the dictionary (lines 254-277, 394-421). -/
theorem serialize_maxzero_disables_global_path (column : ColumnWithDictionary α)
    (offset limit : Nat) (settings : SerializeSettings) (state : SerializeState α)
    (streams : Streams α)
    (hmax : settings.max_dictionary_size = 0) (hv : state.key_version = 1)
    (lim : Nat)
    (hlim : lim = if limit = 0 then size column - offset else min limit (size column - offset))
    (D : List α) (hD : D = distinctFirst (blockValues column offset lim))
    (pos : List Nat) (hpos : pos = (blockValues column offset lim).map (fun v => D.indexOf v))
    (header : Nat)
    (hh : header = serializeIndexesType ⟨widthType pos, !D.isEmpty, false⟩) :
    (∀ hK : Bool, serializeBinaryBulkStateSuffix settings state hK streams = .ok streams) ∧
    header.testBit 8 = false ∧
    (settings.use_new_dictionary_on_overflow = false →
      serializeBinaryBulkWithMultipleStreams column offset limit settings state true true streams
        = .ok (state,
            ⟨streams.keys,
              (streams.indexes ++ [Token.word header] ++
                (if D.isEmpty then [] else Token.word D.length :: D.map Token.val)) ++
                Token.word pos.length :: pos.map Token.word⟩)) ∧
    (settings.use_new_dictionary_on_overflow = true →
      serializeBinaryBulkWithMultipleStreams column offset limit settings state true true streams
        = .ok ({ state with global_dictionary := some [] },
            ⟨streams.keys ++ Token.word (state.global_dictionary.getD []).length ::
                (state.global_dictionary.getD []).map Token.val,
              (streams.indexes ++ [Token.word header] ++
                (if D.isEmpty then [] else Token.word D.length :: D.map Token.val)) ++
                Token.word pos.length :: pos.map Token.word⟩)) := by
  have hf := serialize_maxzero_frame column offset limit settings state streams hmax hv
    lim hlim D hD pos hpos header hh
  refine ⟨(suffix_frame settings state streams hv).2.1 (Or.inr hmax), hf.2, ?_, ?_⟩
  · intro hu
    rw [hf.1]
    simp [hu]
  · intro hu
    rw [hf.1]
    simp [hu]

/-- Witness for C2 (amended) at a concrete input: one block of one value
with `use_new_dictionary_on_overflow = false` leaves the keys stream
untouched and carries the value as an additional key. -/
theorem serialize_maxzero_disables_global_path_witness :
    serializeBinaryBulkWithMultipleStreams (⟨[5], [0], false⟩ : ColumnWithDictionary Nat)
        0 0 ⟨0, false⟩ ⟨1, some []⟩ true true ⟨[], []⟩
      = .ok (⟨1, some []⟩,
          ⟨[], [Token.word 512, Token.word 1, Token.val 5, Token.word 1, Token.word 0]⟩) := by
  have h := (serialize_maxzero_disables_global_path
    (⟨[5], [0], false⟩ : ColumnWithDictionary Nat) 0 0 ⟨0, false⟩ ⟨1, some []⟩ ⟨[], []⟩
    rfl rfl _ rfl _ rfl _ rfl _ rfl).2.2.1 rfl
  rw [h]
  decide

/-- Helper: closed form of a per-block serialize call when
`max_dictionary_size ≠ 0` — the block's distinct values are merged into
the global dictionary with overflow, positions are remapped through the
returned mapping, overflowed keys go to the indexes stream as additional
keys, and the (post-insertion) dictionary is flushed to the keys stream
and replaced by a fresh one exactly when `use_new_dictionary_on_overflow`
holds and the dictionary reached the budget. -/
theorem serialize_maxpos_frame (column : ColumnWithDictionary α) (offset limit : Nat)
    (settings : SerializeSettings) (state : SerializeState α) (streams : Streams α) (g : List α)
    (hm : settings.max_dictionary_size ≠ 0) (hv : state.key_version = 1)
    (hg : state.global_dictionary = some g)
    (lim : Nat)
    (hlim : lim = if limit = 0 then size column - offset else min limit (size column - offset))
    (D : List α) (hD : D = distinctFirst (blockValues column offset lim))
    (iwo : IndexesWithOverflow α)
    (hiwo : iwo = uniqueInsertRangeWithOverflow g D settings.max_dictionary_size)
    (pos : List Nat)
    (hpos : pos = ((blockValues column offset lim).map (fun v => D.indexOf v)).map
      (fun p => iwo.mapping.getD p 0))
    (header : Nat)
    (hh : header = serializeIndexesType ⟨widthType pos, !iwo.overflow.isEmpty, true⟩) :
    serializeBinaryBulkWithMultipleStreams column offset limit settings state true true streams
      = .ok ({ state with global_dictionary :=
                (if (settings.use_new_dictionary_on_overflow
                    && decide (settings.max_dictionary_size ≤ iwo.dict.length)) = true then
                  some []
                else some iwo.dict) },
          ⟨(if (settings.use_new_dictionary_on_overflow
                && decide (settings.max_dictionary_size ≤ iwo.dict.length)) = true then
              streams.keys ++ Token.word iwo.dict.length :: iwo.dict.map Token.val
            else streams.keys),
            (streams.indexes ++ [Token.word header] ++
              (if iwo.overflow.isEmpty then []
                else Token.word iwo.overflow.length :: iwo.overflow.map Token.val)) ++
              Token.word pos.length :: pos.map Token.word⟩) := by
  subst hD
  subst hiwo
  subst hpos
  subst hh
  subst hlim
  obtain ⟨ms, un⟩ := settings
  simp only at hm hv hg
  have hb : (ms != 0) = true := by simp [hm]
  cases un <;>
    by_cases hlen : ms ≤ (uniqueInsertRangeWithOverflow g (distinctFirst (blockValues column offset
        (if limit = 0 then size column - offset else min limit (size column - offset)))) ms).dict.length <;>
      by_cases ho : (uniqueInsertRangeWithOverflow g (distinctFirst (blockValues column offset
          (if limit = 0 then size column - offset else min limit (size column - offset)))) ms).overflow = [] <;>
        simp [serializeBinaryBulkWithMultipleStreams, cutAndCompact, hv, hg, hm, hlen, ho, hb]

/-- C4 (amended): a per-block serialize call (both streams present,
version 1, a dictionary installed, offset within the column) writes, as
the last fields of the indexes stream, a row count followed by exactly
that many packed indexes, and the count is `column.size - offset` when
`limit = 0` and `min limit (column.size - offset)` otherwise (line 388:
`limit` 0 means unlimited). -/
theorem serialize_row_count (column : ColumnWithDictionary α) (offset limit : Nat)
    (settings : SerializeSettings) (state : SerializeState α) (streams : Streams α) (g : List α)
    (hoff : offset ≤ size column) (hv : state.key_version = 1)
    (hg : state.global_dictionary = some g) :
    ∃ (st' : SerializeState α) (keysOut pre : WStream α) (idx : List Nat),
      serializeBinaryBulkWithMultipleStreams column offset limit settings state true true streams
        = .ok (st', ⟨keysOut, streams.indexes ++ pre ++ Token.word idx.length :: idx.map Token.word⟩) ∧
      idx.length = (if limit = 0 then size column - offset else min limit (size column - offset)) := by
  have hblock : ∀ lim : Nat, lim ≤ size column - offset →
      (blockValues column offset lim).length = lim := by
    intro lim hl
    simp only [blockValues, values, List.length_take, List.length_drop, List.length_map]
    simp only [size] at hl ⊢
    omega
  set lim := (if limit = 0 then size column - offset else min limit (size column - offset))
    with hlimdef
  have hlimle : lim ≤ size column - offset := by
    rw [hlimdef]
    split <;> omega
  set D := distinctFirst (blockValues column offset lim) with hDdef
  by_cases hm : settings.max_dictionary_size = 0
  · set pos := (blockValues column offset lim).map (fun v => D.indexOf v) with hposdef
    have h := (serialize_maxzero_frame column offset limit settings state streams hm hv
      lim hlimdef D hDdef pos hposdef _ rfl).1
    refine ⟨{ state with global_dictionary :=
        (if settings.use_new_dictionary_on_overflow then some [] else state.global_dictionary) },
      (if settings.use_new_dictionary_on_overflow then
        streams.keys ++ Token.word (state.global_dictionary.getD []).length ::
          (state.global_dictionary.getD []).map Token.val
      else streams.keys),
      Token.word (serializeIndexesType ⟨widthType pos, !D.isEmpty, false⟩) ::
        (if D.isEmpty then [] else Token.word D.length :: D.map Token.val),
      pos, ?_, ?_⟩
    · rw [h]
      simp [List.append_assoc]
    · rw [hposdef, List.length_map, hblock lim hlimle]
  · set iwo := uniqueInsertRangeWithOverflow g D settings.max_dictionary_size with hiwodef
    set pos := ((blockValues column offset lim).map (fun v => D.indexOf v)).map
      (fun p => iwo.mapping.getD p 0) with hposdef
    have h := serialize_maxpos_frame column offset limit settings state streams g hm hv hg
      lim hlimdef D hDdef iwo hiwodef pos hposdef _ rfl
    refine ⟨{ state with global_dictionary :=
        (if (settings.use_new_dictionary_on_overflow
            && decide (settings.max_dictionary_size ≤ iwo.dict.length)) = true then
          some []
        else some iwo.dict) },
      (if (settings.use_new_dictionary_on_overflow
          && decide (settings.max_dictionary_size ≤ iwo.dict.length)) = true then
        streams.keys ++ Token.word iwo.dict.length :: iwo.dict.map Token.val
      else streams.keys),
      Token.word (serializeIndexesType ⟨widthType pos, !iwo.overflow.isEmpty, true⟩) ::
        (if iwo.overflow.isEmpty then []
          else Token.word iwo.overflow.length :: iwo.overflow.map Token.val),
      pos, ?_, ?_⟩
    · rw [h]
      simp [List.append_assoc]
    · rw [hposdef, List.length_map, List.length_map, hblock lim hlimle]

/-- Witness for C4 (amended) at a concrete input: a two-row column with
`limit = 3` serializes `min 3 2 = 2` rows. -/
theorem serialize_row_count_witness :
    ∃ (st' : SerializeState Nat) (keysOut pre : WStream Nat) (idx : List Nat),
      serializeBinaryBulkWithMultipleStreams (⟨[7, 9], [0, 1], false⟩ : ColumnWithDictionary Nat)
          0 3 ⟨0, false⟩ ⟨1, some []⟩ true true ⟨[], []⟩
        = .ok (st', ⟨keysOut, ([] : WStream Nat) ++ pre ++ Token.word idx.length :: idx.map Token.word⟩) ∧
      idx.length = (if 3 = 0 then size (⟨[7, 9], [0, 1], false⟩ : ColumnWithDictionary Nat) - 0
        else min 3 (size (⟨[7, 9], [0, 1], false⟩ : ColumnWithDictionary Nat) - 0)) :=
  serialize_row_count (⟨[7, 9], [0, 1], false⟩ : ColumnWithDictionary Nat) 0 3 ⟨0, false⟩
    ⟨1, some []⟩ ⟨[], []⟩ [] (by decide) rfl rfl

/-- Helper: the header phase never replaces an installed global
dictionary and does not read the keys stream when one is installed
(line 529: the dictionary is read only when none is present). -/
theorem readHeaderPhase_preserves_global (st : DeserializeState α) (keys indexes : WStream α)
    (d : List α) (hd : st.global_dictionary = some d) (st' : DeserializeState α)
    (keys' indexes' : WStream α)
    (h : readHeaderPhase st keys indexes = .ok (st', keys', indexes')) :
    st'.global_dictionary = some d ∧ keys' = keys := by
  unfold readHeaderPhase at h
  cases hw : readWord indexes with
  | error e => simp [hw] at h
  | ok p =>
    obtain ⟨w, idx1⟩ := p
    simp only [hw] at h
    cases hit : deserializeIndexesTypeWord w with
    | error e => simp [hit] at h
    | ok it =>
      simp only [hit, hd, Option.isNone_some, Bool.and_false, Bool.false_eq_true,
        if_false, reduceIte] at h
      by_cases ha : it.has_additional_keys
      · simp only [ha, if_true, reduceIte] at h
        cases hw2 : readWord idx1 with
        | error e => simp [hw2] at h
        | ok p2 =>
          obtain ⟨nk, idx2⟩ := p2
          simp only [hw2] at h
          cases hv2 : readVals (α := α) nk idx2 with
          | error e => simp [hv2] at h
          | ok p3 =>
            obtain ⟨ak, idx3⟩ := p3
            simp only [hv2] at h
            cases hw3 : readWord idx3 with
            | error e => simp [hw3] at h
            | ok p4 =>
              obtain ⟨np, idx4⟩ := p4
              simp only [hw3] at h
              cases h
              exact ⟨rfl, rfl⟩
      · simp only [ha, if_false, reduceIte] at h
        cases idx1 with
        | nil => simp [readWord] at h
        | cons t rest =>
          cases t with
          | val a => simp [readWord] at h
          | word n =>
            simp only [readWord] at h
            cases h
            exact ⟨rfl, rfl⟩

/-- Helper: the decoding loop preserves an installed global dictionary
and leaves the keys stream unconsumed, for every fuel value. -/
theorem deserializeLoop_preserves_global (fuel : Nat) :
    ∀ (column : ColumnWithDictionary α) (limit : Nat) (st : DeserializeState α)
      (keys indexes : WStream α) (d : List α),
      st.global_dictionary = some d →
      ∀ (c' : ColumnWithDictionary α) (s' : DeserializeState α) (r : Streams α),
        deserializeLoop fuel column limit st keys indexes = .ok (c', s', r) →
        s'.global_dictionary = some d ∧ r.keys = keys := by
  induction fuel with
  | zero =>
    intro column limit st keys indexes d hd c' s' r h
    simp only [deserializeLoop] at h
    cases h
    exact ⟨hd, rfl⟩
  | succ fuel ih =>
    intro column limit st keys indexes d hd c' s' r h
    simp only [deserializeLoop] at h
    by_cases hl : limit = 0
    · simp only [hl, if_true, reduceIte] at h
      cases h
      exact ⟨hd, rfl⟩
    · simp only [hl, if_false, reduceIte] at h
      by_cases hp : st.num_pending_rows = 0
      · simp only [hp, if_true, reduceIte] at h
        by_cases he : indexes.isEmpty
        · simp only [he, if_true, reduceIte] at h
          cases h
          exact ⟨hd, rfl⟩
        · simp only [he, if_false, reduceIte] at h
          cases hh : readHeaderPhase st keys indexes with
          | error e => simp [hh] at h
          | ok p =>
            obtain ⟨st1, keys1, idx1⟩ := p
            simp only [hh] at h
            obtain ⟨hg1, hk1⟩ := readHeaderPhase_preserves_global st keys indexes d hd
              st1 keys1 idx1 hh
            cases hr : readIndexes st1 column (min limit st1.num_pending_rows) idx1 with
            | error e => simp [hr] at h
            | ok p2 =>
              obtain ⟨col2, idx2⟩ := p2
              simp only [hr] at h
              have := ih col2 (limit - min limit st1.num_pending_rows)
                { st1 with num_pending_rows := st1.num_pending_rows - min limit st1.num_pending_rows }
                keys1 idx2 d hg1 c' s' r h
              exact ⟨this.1, this.2.trans hk1⟩
      · simp only [hp, if_false, reduceIte] at h
        cases hr : readIndexes st column (min limit st.num_pending_rows) indexes with
        | error e => simp [hr] at h
        | ok p2 =>
          obtain ⟨col2, idx2⟩ := p2
          simp only [hr] at h
          exact ih col2 (limit - min limit st.num_pending_rows)
            { st with num_pending_rows := st.num_pending_rows - min limit st.num_pending_rows }
            keys idx2 d hd c' s' r h

/-- C10: write-once decoder dictionary: once the decoder state holds a
global dictionary, a bulk-read call never reads another
global-dictionary payload from the keys stream (the keys stream comes
back untouched) and never replaces the installed dictionary, whatever
the headers of the blocks it decodes say (lines 461-472 and 520-544). -/
theorem decoder_dictionary_write_once (column : ColumnWithDictionary α) (limit : Nat)
    (st : DeserializeState α) (hK hI : Bool) (streams : Streams α) (d : List α)
    (hd : st.global_dictionary = some d) :
    ∀ (c' : ColumnWithDictionary α) (s' : DeserializeState α) (r : Streams α),
      deserializeBinaryBulkWithMultipleStreams column limit st hK hI streams = .ok (c', s', r) →
      s'.global_dictionary = some d ∧ r.keys = streams.keys := by
  intro c' s' r h
  unfold deserializeBinaryBulkWithMultipleStreams at h
  by_cases h1 : st.key_version ≠ 1
  · rw [if_pos h1] at h
    exact absurd h (by simp)
  · rw [if_neg h1] at h
    by_cases h2 : (!hK && !hI) = true
    · rw [if_pos h2] at h
      cases h
      exact ⟨hd, rfl⟩
    · rw [if_neg h2] at h
      by_cases h3 : (!hK) = true
      · rw [if_pos h3] at h
        exact absurd h (by simp)
      · rw [if_neg h3] at h
        by_cases h4 : (!hI) = true
        · rw [if_pos h4] at h
          exact absurd h (by simp)
        · rw [if_neg h4] at h
          exact deserializeLoop_preserves_global _ column limit st streams.keys
            streams.indexes d hd c' s' r h

/-- Witness for C10 at a concrete input: a state with dictionary `[3]`
and an empty indexes stream comes back with the same dictionary and
untouched keys stream. -/
theorem decoder_dictionary_write_once_witness :
    (⟨1, some [3], ⟨.tUInt8, false, false⟩, none, 0⟩ : DeserializeState Nat).global_dictionary
        = some [3] ∧ (⟨[], []⟩ : Streams Nat).keys = (⟨[], []⟩ : Streams Nat).keys :=
  decoder_dictionary_write_once (α := Nat) ⟨[], [], false⟩ 2
    ⟨1, some [3], ⟨.tUInt8, false, false⟩, none, 0⟩ true true ⟨[], []⟩ [3] rfl
    ⟨[], [], false⟩ ⟨1, some [3], ⟨.tUInt8, false, false⟩, none, 0⟩ ⟨[], []⟩ (by decide)

/-- Helper: membership in the first-occurrence dedup fold. -/
theorem distinctFirst_foldl_mem (l : List α) :
    ∀ (acc : List α) (a : α),
      (a ∈ l.foldl (fun acc v => if v ∈ acc then acc else acc ++ [v]) acc ↔ a ∈ acc ∨ a ∈ l) := by
  induction l with
  | nil => intro acc a; simp
  | cons x xs ih =>
    intro acc a
    simp only [List.foldl_cons]
    rw [ih]
    by_cases hx : x ∈ acc <;> by_cases hax : a = x <;>
      simp [hx, hax, List.mem_append]

/-- Helper: `distinctFirst` keeps exactly the members of the list. -/
theorem mem_distinctFirst (l : List α) (a : α) : a ∈ distinctFirst l ↔ a ∈ l := by
  unfold distinctFirst
  rw [distinctFirst_foldl_mem]
  simp

/-- Helper: the hash-map membership test checks the stored keys. -/
theorem hashMapContains_eq_mem (m : List (Nat × Nat)) (k : Nat) :
    hashMapContains m k = decide (k ∈ m.map Prod.fst) := by
  induction m with
  | nil => rfl
  | cons p rest ih =>
    simp only [hashMapContains, List.any_cons, List.map_cons, List.mem_cons] at ih ⊢
    rw [ih]
    by_cases hk : p.1 = k
    · simp [hk, eq_comm]
    · have hb : (p.1 == k) = false := beq_eq_false_iff_ne.mpr hk
      have hk2 : ¬(k = p.1) := fun h => hk h.symm
      simp [hb, hk2]

/-- Helper: the keys of the built hash map, in insertion order, are the
distinct below-bound values of the input in first-occurrence order. -/
theorem buildHashMap_foldl_fst (maxVal : Nat) (l : List Nat) :
    ∀ acc : List (Nat × Nat),
      (l.foldl (fun m v =>
          if v < maxVal then (if hashMapContains m v then m else m ++ [(v, m.length)]) else m)
        acc).map Prod.fst
        = (l.filter (fun v => decide (v < maxVal))).foldl
            (fun acc v => if v ∈ acc then acc else acc ++ [v]) (acc.map Prod.fst) := by
  induction l with
  | nil => intro acc; rfl
  | cons x xs ih =>
    intro acc
    simp only [List.foldl_cons, List.filter_cons]
    rw [hashMapContains_eq_mem]
    by_cases hx : x < maxVal <;> by_cases hc : x ∈ acc.map Prod.fst <;>
      simp [hx, hc, ih]

/-- Helper: every entry of the built hash map stores its own position as
its rank (`hash_map.size()` at insertion time). -/
theorem buildHashMap_foldl_snd (maxVal : Nat) (l : List Nat) :
    ∀ acc : List (Nat × Nat),
      (∀ (i : Nat) (p : Nat × Nat), acc[i]? = some p → p.2 = i) →
      ∀ (i : Nat) (p : Nat × Nat), (l.foldl (fun m v =>
          if v < maxVal then (if hashMapContains m v then m else m ++ [(v, m.length)]) else m)
        acc)[i]? = some p → p.2 = i := by
  induction l with
  | nil => intro acc hacc; exact hacc
  | cons x xs ih =>
    intro acc hacc
    simp only [List.foldl_cons]
    by_cases hx : x < maxVal
    · by_cases hc : hashMapContains acc x
      · simp only [hx, hc, if_true, reduceIte]
        exact ih acc hacc
      · simp only [hx, hc, if_true, if_false, reduceIte]
        refine ih (acc ++ [(x, acc.length)]) ?_
        intro i p hp
        rw [List.getElem?_append] at hp
        rcases lt_or_ge i acc.length with hi | hi
        · rw [if_pos hi] at hp
          exact hacc i p hp
        · rw [if_neg (by omega)] at hp
          rcases Nat.eq_or_lt_of_le hi with hieq | hilt
          · rw [← hieq, Nat.sub_self] at hp
            simp at hp
            rw [← hp]
            omega
          · rw [List.getElem?_eq_none (by simp; omega)] at hp
            cases hp
    · simp only [hx, if_false, reduceIte]
      exact ih acc hacc

/-- Helper: in a map whose entry at position `i` has rank `b + i`,
searching by rank finds the entry at that position. -/
theorem find_by_snd (m : List (Nat × Nat)) :
    ∀ (b r : Nat), (∀ (i : Nat) (p : Nat × Nat), m[i]? = some p → p.2 = b + i) →
      m.find? (fun p => p.2 == b + r) = m[r]? := by
  induction m with
  | nil => intro b r _; rfl
  | cons q rest ih =>
    intro b r hinv
    have hq : q.2 = b := by
      have := hinv 0 q (by simp)
      omega
    cases r with
    | zero =>
      have ht : (q.2 == b + 0) = true := beq_iff_eq.mpr (by omega)
      simp only [List.find?_cons, ht]
      simp
    | succ r =>
      have hf : (q.2 == b + (r + 1)) = false := beq_eq_false_iff_ne.mpr (by omega)
      simp only [List.find?_cons, hf]
      have hfun : (fun p : Nat × Nat => p.2 == b + (r + 1)) = fun p => p.2 == (b + 1) + r := by
        funext p
        congr 1
        omega
      rw [hfun, ih (b + 1) r ?_]
      · simp
      · intro i p hp
        have := hinv (i + 1) p (by simpa using hp)
        omega

/-- Helper: looking a stored key up returns its rank, which is its
position, i.e. the index of the key in the stored key list. -/
theorem hashMapFind_rank (m : List (Nat × Nat)) :
    ∀ (b k : Nat), (∀ (i : Nat) (p : Nat × Nat), m[i]? = some p → p.2 = b + i) →
      k ∈ m.map Prod.fst → hashMapFind m k = b + (m.map Prod.fst).indexOf k := by
  induction m with
  | nil => intro b k _ hk; cases hk
  | cons q rest ih =>
    intro b k hinv hk
    have hq : q.2 = b := by
      have := hinv 0 q (by simp)
      omega
    by_cases hqk : q.1 = k
    · have hbq : (q.1 == k) = true := beq_iff_eq.mpr hqk
      have hbq2 : (k == q.1) = true := beq_iff_eq.mpr hqk.symm
      simp only [hashMapFind, List.find?_cons, hbq, List.map_cons, List.indexOf_cons, hbq2]
      simp [hq]
    · have hbq : (q.1 == k) = false := beq_eq_false_iff_ne.mpr hqk
      have hbq2 : (k == q.1) = false := beq_eq_false_iff_ne.mpr (fun h => hqk h.symm)
      have hkrest : k ∈ rest.map Prod.fst := by
        rw [List.map_cons, List.mem_cons] at hk
        rcases hk with h | h
        · exact absurd h.symm hqk
        · exact h
      have hrest := ih (b + 1) k ?_ hkrest
      · unfold hashMapFind at hrest
        simp only [hashMapFind, List.find?_cons, hbq, List.map_cons, List.indexOf_cons, hbq2]
        rw [hrest]
        simp
        omega
      · intro i p hp
        have := hinv (i + 1) p (by simpa using hp)
        omega

/-- Helper: the map column assembled by rank (`index_data[rank] = key`)
is the key list in insertion order. -/
theorem indexMapData_eq (m : List (Nat × Nat))
    (hinv : ∀ (i : Nat) (p : Nat × Nat), m[i]? = some p → p.2 = i) :
    indexMapData m = m.map Prod.fst := by
  have hfind : ∀ r : Nat, m.find? (fun p => p.2 == r) = m[r]? := by
    intro r
    have h0 := find_by_snd m 0 r (by intro i p hp; simpa using hinv i p hp)
    simpa using h0
  apply List.ext_getElem?
  intro i
  rcases lt_or_ge i m.length with hi | hi
  · have hp : m[i]? = some m[i] := List.getElem?_eq_getElem hi
    simp only [indexMapData, List.getElem?_map, List.getElem?_range (by simpa using hi),
      Option.map_some, hfind, hp]
    simp [hp]
  · have h1 : (indexMapData m)[i]? = none := by
      apply List.getElem?_eq_none
      simpa [indexMapData] using hi
    have h2 : (m.map Prod.fst)[i]? = none := by
      apply List.getElem?_eq_none
      simpa using hi
    rw [h1, h2]

/-- C7: `mapIndexWithOverflow` sends each input value `v < max` to the
dense rank of `v` among the distinct below-`max` values of the input in
first-occurrence order, and each `v ≥ max` to `v - max + N` where `N` is
the number of distinct below-`max` values; the returned map column is
exactly that distinct-value list (length `N`), mapping each dense id
back to the original below-`max` index (lines 309-332). -/
theorem mapIndexWithOverflow_spec (index : List Nat) (maxVal : Nat) :
    (mapIndexWithOverflow index maxVal).1
        = distinctFirst (index.filter (fun v => decide (v < maxVal))) ∧
    (mapIndexWithOverflow index maxVal).2.length = index.length ∧
    (∀ i : Nat, (mapIndexWithOverflow index maxVal).2[i]?
        = (index[i]?).map (fun v =>
            if v < maxVal then
              (distinctFirst (index.filter (fun v => decide (v < maxVal)))).indexOf v
            else v - maxVal +
              (distinctFirst (index.filter (fun v => decide (v < maxVal)))).length)) ∧
    (∀ v : Nat, v ∈ distinctFirst (index.filter (fun v => decide (v < maxVal))) → v < maxVal) := by
  have hsnd : ∀ (i : Nat) (p : Nat × Nat), (buildHashMap index maxVal)[i]? = some p → p.2 = i := by
    unfold buildHashMap
    refine buildHashMap_foldl_snd maxVal index [] ?_
    intro i p hp
    simp at hp
  have hfst : (buildHashMap index maxVal).map Prod.fst
      = distinctFirst (index.filter (fun v => decide (v < maxVal))) := by
    unfold buildHashMap distinctFirst
    simpa using buildHashMap_foldl_fst maxVal index []
  have hlen : (buildHashMap index maxVal).length
      = (distinctFirst (index.filter (fun v => decide (v < maxVal)))).length := by
    rw [← hfst, List.length_map]
  refine ⟨?_, ?_, ?_, ?_⟩
  · show indexMapData (buildHashMap index maxVal) = _
    rw [indexMapData_eq _ hsnd, hfst]
  · simp [mapIndexWithOverflow]
  · intro i
    simp only [mapIndexWithOverflow, List.getElem?_map]
    cases hv : index[i]? with
    | none => rfl
    | some v =>
      simp only [Option.map_some']
      congr 1
      by_cases hvm : v < maxVal
      · simp only [hvm, if_true, reduceIte]
        have hmem : v ∈ (buildHashMap index maxVal).map Prod.fst := by
          rw [hfst, mem_distinctFirst, List.mem_filter]
          exact ⟨List.getElem?_mem hv, by simpa using hvm⟩
        have := hashMapFind_rank (buildHashMap index maxVal) 0 v
          (by intro j p hp; simpa using hsnd j p hp) hmem
        rw [this, hfst]
        simp
      · simp only [hvm, if_false, reduceIte]
        rw [hlen]
  · intro v hv
    rw [mem_distinctFirst, List.mem_filter] at hv
    simpa using hv.2

/-- Witness for C7 at the concrete input `[5,3,5,7,2,9]` with bound 6:
the map column is `[5,3,2]` and the remapped indexes are `[0,1,0,4,2,6]`. -/
theorem mapIndexWithOverflow_spec_witness :
    (mapIndexWithOverflow [5, 3, 5, 7, 2, 9] 6).2[3]?
      = (([5, 3, 5, 7, 2, 9] : List Nat)[3]?).map (fun v =>
          if v < 6 then
            (distinctFirst (([5, 3, 5, 7, 2, 9] : List Nat).filter (fun v => decide (v < 6)))).indexOf v
          else v - 6 +
            (distinctFirst (([5, 3, 5, 7, 2, 9] : List Nat).filter (fun v => decide (v < 6)))).length) :=
  (mapIndexWithOverflow_spec [5, 3, 5, 7, 2, 9] 6).2.2.1 3

end DataTypeWithDictionary
